import Mathlib

/-!
# DNA Toolkit — verification of the translation / analysis pipeline

Shallow embedding of the DNA-sequence toolkit (FastAPI service):
`AA_lookup.py` (codon and property tables), `routes/analysis.py`
(GC content, amino-acid translation, composition, summary statistics)
and `routes/sequences.py` (record creation/validation).

Python strings are modelled as `String` / `List Char`, Python numbers as
`ℚ` (exact rationals; Python `round` is modelled as round-half-to-even on
rationals), Python dicts as insertion-ordered association lists, and the
JSON-lines record store as a `List SeqRecord`.  Endpoints that mutate the
store return the store that is persisted after the call together with an
`Except` value standing for the HTTP result (errors are the code's
`HTTPException` branches; on an error branch the code never calls
`save_sequences`, so the returned store is the input store).
-/

deriving instance DecidableEq for Except

namespace DnaToolkit

/-! ## Python primitives -/

/-- Python `round` to an integer: round half to even (banker's rounding),
modelled exactly on rationals. -/
def pyRoundInt (q : ℚ) : ℤ :=
  let f : ℤ := ⌊q⌋
  let frac : ℚ := q - f
  if frac < 1/2 then f
  else if 1/2 < frac then f + 1
  else if f % 2 = 0 then f else f + 1

/-- Python `round(q, ndigits)` for `ndigits ≥ 0`, on rationals. -/
def pyRound (q : ℚ) (ndigits : ℕ) : ℚ :=
  (pyRoundInt (q * 10 ^ ndigits) : ℚ) / 10 ^ ndigits

/-- Python `str.upper()` (ASCII fragment, all the code needs). -/
def pyUpper (s : List Char) : List Char := s.map Char.toUpper

/-- Characters stripped by Python `str.strip()` (ASCII whitespace). -/
def pyIsSpace (c : Char) : Bool :=
  c == ' ' || c == '\t' || c == '\n' || c == '\r' || c == '\x0b' || c == '\x0c'

/-- Python `str.strip()`: drop whitespace from both ends. -/
def pyStrip (s : List Char) : List Char :=
  ((s.dropWhile pyIsSpace).reverse.dropWhile pyIsSpace).reverse

/-- Python dict lookup `d.get(k, dflt)` on an insertion-ordered
association list. -/
def dictGet {β : Type} : List (String × β) → String → β → β
  | [], _, dflt => dflt
  | p :: m, k, dflt => if p.1 == k then p.2 else dictGet m k dflt

/-- Python dict assignment `d[k] = v`: replace the value at the first
(and, for a real dict, only) occurrence of `k`, else append at the end —
dicts preserve insertion order. -/
def dictSet {β : Type} : List (String × β) → String → β → List (String × β)
  | [], k, v => [(k, v)]
  | p :: m, k, v => if p.1 == k then (k, v) :: m else p :: dictSet m k v

/-- The keys of an association list, in order. -/
def keys {β : Type} (m : List (String × β)) : List String := m.map Prod.fst

/-- Sum of the values of an association list. -/
def sumVals (m : List (String × ℕ)) : ℕ := (m.map Prod.snd).sum

/-- The Python idiom `d[x] = d.get(x, 0) + 1` folded over a list:
an insertion-ordered count map. -/
def countMap (l : List String) : List (String × ℕ) :=
  l.foldl (fun m x => dictSet m x (dictGet m x 0 + 1)) []

/-- Keys in first-occurrence order, excluding an initial `seen` set:
the key order of an insertion-ordered count map. -/
def dedupNotIn : List String → List String → List String
  | _, [] => []
  | seen, x :: xs =>
    if x ∈ seen then dedupNotIn seen xs else x :: dedupNotIn (seen ++ [x]) xs

/-- The distinct elements of a list in first-occurrence order. -/
def firstDedup (l : List String) : List String := dedupNotIn [] l

/-! ## `AA_lookup.py`: the genetic code table and the property table -/

/-- Table `Codon_Table` from `AA_lookup.py`: maps each DNA triplet to the
3-letter amino-acid code, or to the sentinel `"Stop"`. -/
def Codon_Table : List (String × String) := [
  ("TTT", "Phe"), ("TTC", "Phe"),
  ("TTA", "Leu"), ("TTG", "Leu"), ("CTT", "Leu"), ("CTC", "Leu"), ("CTA", "Leu"), ("CTG", "Leu"),
  ("ATT", "Ile"), ("ATC", "Ile"), ("ATA", "Ile"),
  ("ATG", "Met"),
  ("GTT", "Val"), ("GTC", "Val"), ("GTA", "Val"), ("GTG", "Val"),
  ("TCT", "Ser"), ("TCC", "Ser"), ("TCA", "Ser"), ("TCG", "Ser"), ("AGT", "Ser"), ("AGC", "Ser"),
  ("CCT", "Pro"), ("CCC", "Pro"), ("CCA", "Pro"), ("CCG", "Pro"),
  ("ACT", "Thr"), ("ACC", "Thr"), ("ACA", "Thr"), ("ACG", "Thr"),
  ("GCT", "Ala"), ("GCC", "Ala"), ("GCA", "Ala"), ("GCG", "Ala"),
  ("TAT", "Tyr"), ("TAC", "Tyr"),
  ("CAT", "His"), ("CAC", "His"),
  ("CAA", "Gln"), ("CAG", "Gln"),
  ("AAT", "Asn"), ("AAC", "Asn"),
  ("AAA", "Lys"), ("AAG", "Lys"),
  ("GAT", "Asp"), ("GAC", "Asp"),
  ("GAA", "Glu"), ("GAG", "Glu"),
  ("TGT", "Cys"), ("TGC", "Cys"),
  ("TGG", "Trp"),
  ("CGT", "Arg"), ("CGC", "Arg"), ("CGA", "Arg"), ("CGG", "Arg"), ("AGA", "Arg"), ("AGG", "Arg"),
  ("GGT", "Gly"), ("GGC", "Gly"), ("GGA", "Gly"), ("GGG", "Gly"),
  ("TAA", "Stop"), ("TAG", "Stop"), ("TGA", "Stop")]

/-- Table `AA_Properties` from `AA_lookup.py`: chemical class of each amino acid. -/
def AA_Properties : List (String × String) := [
  ("Ala", "nonpolar"),
  ("Arg", "positively charged"),
  ("Asn", "polar"),
  ("Asp", "negatively charged"),
  ("Cys", "polar"),
  ("Gln", "polar"),
  ("Glu", "negatively charged"),
  ("Gly", "nonpolar"),
  ("His", "positively charged"),
  ("Ile", "nonpolar"),
  ("Leu", "nonpolar"),
  ("Lys", "positively charged"),
  ("Met", "nonpolar"),
  ("Phe", "nonpolar"),
  ("Pro", "nonpolar"),
  ("Ser", "polar"),
  ("Thr", "polar"),
  ("Trp", "nonpolar"),
  ("Tyr", "polar"),
  ("Val", "nonpolar")]

/-- The three stop codons of `Codon_Table`. -/
def stopCodons : List String := ["TAA", "TAG", "TGA"]

/-- The valid DNA alphabet `{"A", "T", "G", "C"}` of `sequences.py`. -/
def validBases : List Char := ['A', 'T', 'G', 'C']

/-! ## The translator (`aminoacid_analysis`, lines 64–71)

The loop `for i in range(0, len(dna_str), 3)` reads consecutive
non-overlapping triplets from offset 0; a trailing fragment of fewer than
3 characters breaks out of the loop; `Codon_Table.get(codon, "Unknown")`
defaults to `"Unknown"`; `"Stop"` breaks out of the loop without
appending. -/

/-- Codon-by-codon translation of a DNA character list
(`amino_acid = Codon_Table.get(codon, "Unknown")` is pure, so reading
the table once and branching is written as two identical reads). -/
def translate : List Char → List String
  | c1 :: c2 :: c3 :: rest =>
    if dictGet Codon_Table (String.mk [c1, c2, c3]) "Unknown" = "Stop" then []
    else dictGet Codon_Table (String.mk [c1, c2, c3]) "Unknown" :: translate rest
  | _ => []

/-- The consecutive non-overlapping complete triplets of a list,
starting at offset 0 (the codons the translation loop inspects). -/
def triplets : List Char → List (List Char)
  | c1 :: c2 :: c3 :: rest => [c1, c2, c3] :: triplets rest
  | _ => []

/-! ## `calculate_gc` (`analysis.py`, lines 16–20) -/

/-- GC content and length: uppercase, then
`round((count("G") + count("C")) / len, 4)` paired with the length. -/
def calculate_gc (sequence : List Char) : ℚ × ℕ :=
  let s := pyUpper sequence
  let seq_length := s.length
  let gc_content := pyRound (((s.count 'G' + s.count 'C' : ℕ) : ℚ) / (seq_length : ℚ)) 4
  (gc_content, seq_length)

/-! ## The record store (`schema.py` / `storage.py`)

A stored record (one JSON line of `sequences.txt`); analysis fields are
absent (`none`) until the corresponding endpoint has run. -/

/-- A sequence record as persisted by the toolkit. -/
structure SeqRecord where
  id : ℕ
  label : String
  sequence : String
  nuc_analysed : Bool := false
  aa_analysed : Bool := false
  gc_content : Option ℚ := none
  seq_length : Option ℕ := none
  amino_acid_sequence : Option String := none
  residue_count : Option ℕ := none
  composition : Option (List (String × ℕ)) := none
  top_3_residues : Option (List (String × ℚ)) := none
deriving DecidableEq, Repr

/-- The id generator `max((t["id"] for t in all_sequences), default=0)` of `sequences.py`. -/
def maxId (store : List SeqRecord) : ℕ := (store.map (fun t => t.id)).foldl max 0

/-! ## `create_seq_entry` (`sequences.py`, lines 17–52) -/

/-- The four `HTTPException(400, ...)` branches of `create_seq_entry`,
in source order. -/
inductive CreateErr
  | noSequence
  | tooShort
  | invalidBases
  | noLabel
deriving DecidableEq, Repr

/-- Endpoint `create_seq_entry`: validate, build the record, append, save.
Returns the persisted store (the input store when validation fails,
since `save_sequences` is only reached on success) and the outcome. -/
def create_seq_entry (store : List SeqRecord) (label sequenceIn : String) :
    List SeqRecord × Except CreateErr SeqRecord :=
  let new_id := maxId store + 1
  let dna_seq := pyUpper sequenceIn.data
  if dna_seq.length = 0 then (store, .error .noSequence)
  else if dna_seq.length < 3 then (store, .error .tooShort)
  else if ¬ dna_seq.all (fun c => decide (c ∈ validBases)) then (store, .error .invalidBases)
  else if (pyStrip label.data).length = 0 then (store, .error .noLabel)
  else
    let new_nucseq : SeqRecord :=
      { id := new_id, label := label, sequence := String.mk dna_seq,
        nuc_analysed := false, aa_analysed := false }
    (store ++ [new_nucseq], .ok new_nucseq)

/-! ## `nucleotide_analysis` (`analysis.py`, lines 28–46) -/

/-- The `HTTPException(404)` branch of `nucleotide_analysis`. -/
inductive NucErr
  | notFound
deriving DecidableEq, Repr

/-- The success payload of `nucleotide_analysis`. -/
structure NucleotideResult where
  sequence_id : ℕ
  label : String
  length : ℕ
  gc_content : ℚ
deriving DecidableEq, Repr

/-- Endpoint `nucleotide_analysis`: scan for the first record with the given id,
compute GC content and length, store them, mark `nuc_analysed`, save. -/
def nucleotide_analysis : List SeqRecord → ℕ → List SeqRecord × Except NucErr NucleotideResult
  | [], _ => ([], .error .notFound)
  | r :: rest, i =>
    if i = r.id then
      let gc_content := (calculate_gc r.sequence.data).1
      let seq_length := (calculate_gc r.sequence.data).2
      let r' := { r with gc_content := some gc_content, seq_length := some seq_length,
                         nuc_analysed := true }
      (r' :: rest,
       .ok { sequence_id := i, label := r.label, length := seq_length, gc_content := gc_content })
    else
      ((r :: (nucleotide_analysis rest i).1), (nucleotide_analysis rest i).2)

/-! ## `aminoacid_analysis` (`analysis.py`, lines 55–116) -/

/-- The two `HTTPException` branches of `aminoacid_analysis`:
404 for an unknown id, 400 when translation yields no residues. -/
inductive AAErr
  | notFound
  | emptyTranslation
deriving DecidableEq, Repr

/-- The success payload of `aminoacid_analysis`. -/
structure AminoAcidResult where
  sequence_id : ℕ
  label : String
  amino_acid_sequence : String
  residue_count : ℕ
  composition : List (String × ℕ)
  top_3_residues : List (String × ℚ)
deriving DecidableEq, Repr

/-- The chemical property of a residue: `AA_Properties.get(aa, "Unknown")`. -/
def propertyOf (amino_acid : String) : String := dictGet AA_Properties amino_acid "Unknown"

/-- The composition loop (lines 79–82): count residues per chemical
class, in first-occurrence order (the loop is a fold of
`composition[prop] = composition.get(prop, 0) + 1` over the residues,
i.e. `countMap` of the property-mapped residue list). -/
def composition_of (amino_acids : List String) : List (String × ℕ) :=
  countMap (amino_acids.map propertyOf)

/-- Descending-percentage comparison used by
`sorted(..., key=lambda x: x[1], reverse=True)`. -/
def pctGe (a b : String × ℚ) : Prop := b.2 ≤ a.2

instance : DecidableRel pctGe := fun a b => decidable_of_iff (b.2 ≤ a.2) Iff.rfl

instance : IsTotal (String × ℚ) pctGe := ⟨fun a b => (le_total b.2 a.2).imp id id⟩

instance : IsTrans (String × ℚ) pctGe := ⟨fun _ _ _ h1 h2 => le_trans h2 h1⟩

/-- The residue-percentage dict (lines 85–92): counts in
first-occurrence order, each converted to
`round(count / len(amino_acids) * 100, 2)`. -/
def residue_percentages (amino_acids : List String) : List (String × ℚ) :=
  (countMap amino_acids).map
    (fun p => (p.1, pyRound (((p.2 : ℚ) / (amino_acids.length : ℚ)) * 100) 2))

/-- Lines 95–96: Python's `sorted` is a stable sort; with
`reverse=True` it is the stable descending sort, i.e. insertion sort
along `pctGe`; then keep the first 3. -/
def top_3 (amino_acids : List String) : List (String × ℚ) :=
  (List.insertionSort pctGe (residue_percentages amino_acids)).take 3

/-- Endpoint `aminoacid_analysis`: scan for the first record with the given id,
translate, reject an empty translation, compute composition and top-3,
store the results, mark `aa_analysed`, save. -/
def aminoacid_analysis : List SeqRecord → ℕ → List SeqRecord × Except AAErr AminoAcidResult
  | [], _ => ([], .error .notFound)
  | r :: rest, i =>
    if i = r.id then
      let amino_acids := translate (pyUpper r.sequence.data)
      if amino_acids.length < 1 then (r :: rest, .error .emptyTranslation)
      else
        let aa_str := String.intercalate "-" amino_acids
        let r' := { r with amino_acid_sequence := some aa_str,
                           residue_count := some amino_acids.length,
                           composition := some (composition_of amino_acids),
                           top_3_residues := some (top_3 amino_acids),
                           aa_analysed := true }
        (r' :: rest,
         .ok { sequence_id := i, label := r.label, amino_acid_sequence := aa_str,
               residue_count := amino_acids.length,
               composition := composition_of amino_acids,
               top_3_residues := top_3 amino_acids })
    else
      ((r :: (aminoacid_analysis rest i).1), (aminoacid_analysis rest i).2)

/-! ## `summary_analysis` (`analysis.py`, lines 126–164) -/

/-- The two `HTTPException(404)` branches of `summary_analysis`. -/
inductive SumErr
  | emptyStore
  | noneAnalysed
deriving DecidableEq, Repr

/-- The `detail` strings of the two `summary_analysis` error branches. -/
def sumErrDetail : SumErr → String
  | .emptyStore =>
    "Summary statistics cannot be calculated: No nucleotide sequences have been submitted to DNA Toolkit."
  | .noneAnalysed =>
    "Summary statistics cannot be calculated: No nucleotide sequences currently stored in the DNA Toolkit have undergone analysis."

/-- The success payload of `summary_analysis`. -/
structure SummaryStats where
  total_sequences : ℕ
  nuc_analysed_sequences : ℕ
  aa_analysed_sequences : ℕ
  average_gc_content : ℚ
  average_nucleotide_length : ℚ
  average_amino_acid_length : Option ℚ
  longest_nucleotide_sequence : String
  shortest_nucleotide_sequence : String
deriving DecidableEq, Repr

/-- Python `statistics.mean` on rationals. -/
def pyMean (l : List ℚ) : ℚ := l.sum / (l.length : ℚ)

/-- Python `max(x :: l, key=f)`: keep the current element unless a
strictly greater key appears (so the first maximal element wins). -/
def maxByKey {α : Type} (f : α → ℕ) (x : α) (l : List α) : α :=
  l.foldl (fun acc y => if f acc < f y then y else acc) x

/-- Python `min(x :: l, key=f)`: keep the current element unless a
strictly smaller key appears (so the first minimal element wins). -/
def minByKey {α : Type} (f : α → ℕ) (x : α) (l : List α) : α :=
  l.foldl (fun acc y => if f y < f acc then y else acc) x

/-- The filter `[s for s in all_sequences if s.get("gc_content") is not None]`. -/
def nucAnalysedSeqs (store : List SeqRecord) : List SeqRecord :=
  store.filter (fun s => s.gc_content.isSome)

/-- The filter `[s for s in all_sequences if s.get("residue_count") is not None]`. -/
def aaAnalysedSeqs (store : List SeqRecord) : List SeqRecord :=
  store.filter (fun s => s.residue_count.isSome)

/-- The sort key `lambda x: x["seq_length"]` (set on every record the
filter keeps; `getD 0` is only a total-function default). -/
def recLen (s : SeqRecord) : ℕ := s.seq_length.getD 0

/-- Endpoint `summary_analysis`: reject an empty store, then an empty
nucleotide-analysed subset; average GC/length over that subset, find the
longest and shortest record, and average residue count over the
amino-acid-analysed subset, `none` when that subset is empty. -/
def summary_analysis (store : List SeqRecord) : Except SumErr SummaryStats :=
  match store with
  | [] => .error .emptyStore
  | _ :: _ =>
    match nucAnalysedSeqs store with
    | [] => .error .noneAnalysed
    | a :: rest =>
      let analysed_nuc_seqs := a :: rest
      let av_gc := pyMean (analysed_nuc_seqs.map (fun s => s.gc_content.getD 0))
      let av_nuc_length := pyMean (analysed_nuc_seqs.map (fun s => ((recLen s : ℕ) : ℚ)))
      let longest_nucseq := maxByKey recLen a rest
      let shortest_nucseq := minByKey recLen a rest
      let analysed_aa_seqs := aaAnalysedSeqs store
      let av_aa_length : Option ℚ :=
        if analysed_aa_seqs.length = 0 then none
        else some (pyMean (analysed_aa_seqs.map (fun s => ((s.residue_count.getD 0 : ℕ) : ℚ))))
      .ok { total_sequences := store.length,
            nuc_analysed_sequences := analysed_nuc_seqs.length,
            aa_analysed_sequences := analysed_aa_seqs.length,
            average_gc_content := av_gc,
            average_nucleotide_length := av_nuc_length,
            average_amino_acid_length := av_aa_length,
            longest_nucleotide_sequence := longest_nucseq.label,
            shortest_nucleotide_sequence := shortest_nucseq.label }

/-! ## Derived length extrema and sample records used by witnesses -/

/-- A stored record whose sequence starts with a stop codon. -/
def sampleStopRec : SeqRecord := { id := 1, label := "s", sequence := "TAAATG" }

/-- A plain stored record used by the idempotence witness. -/
def sampleAtgcRec : SeqRecord := { id := 2, label := "w", sequence := "ATGC" }

/-- A record that has been nucleotide-analysed but not amino-acid-analysed. -/
def sampleNucOnlyRec : SeqRecord :=
  { id := 3, label := "n", sequence := "ATGC", nuc_analysed := true,
    gc_content := some 1, seq_length := some 4 }

/-- The record created for label `"lbl"` and sequence `"ATG"` on an empty
store. -/
def sampleCreatedRec : SeqRecord := { id := 1, label := "lbl", sequence := "ATG" }

/-- The maximal `seq_length` over the nucleotide-analysed subset (0 for
an empty subset; matches the key of the record `max(..., key=...)` picks). -/
def maxNucLen (store : List SeqRecord) : ℕ :=
  match nucAnalysedSeqs store with
  | [] => 0
  | a :: rest => recLen (maxByKey recLen a rest)

/-- The minimal `seq_length` over the nucleotide-analysed subset (0 for
an empty subset; matches the key of the record `min(..., key=...)` picks). -/
def minNucLen (store : List SeqRecord) : ℕ :=
  match nucAnalysedSeqs store with
  | [] => 0
  | a :: rest => recLen (minByKey recLen a rest)

/-- First of two equal-length nucleotide-analysed records. -/
def sampleTieRecA : SeqRecord :=
  { id := 10, label := "A", sequence := "ATGC", nuc_analysed := true,
    gc_content := some 1, seq_length := some 4 }

/-- Second of two equal-length nucleotide-analysed records. -/
def sampleTieRecB : SeqRecord :=
  { id := 11, label := "B", sequence := "GGCC", nuc_analysed := true,
    gc_content := some 1, seq_length := some 4 }

/-! ## Lemmas about the dict model -/

theorem dictGet_dictSet {β : Type} (m : List (String × β)) (k k' : String) (v : β) (d : β) :
    dictGet (dictSet m k v) k' d = if k' = k then v else dictGet m k' d := by
  induction m with
  | nil =>
    by_cases h : k' = k
    · simp [dictSet, dictGet, h]
    · simp [dictSet, dictGet, h, beq_iff_eq, Ne.symm h]
  | cons p m ih =>
    by_cases hp : p.1 = k
    · by_cases h : k' = k
      · simp [dictSet, dictGet, hp, h]
      · simp [dictSet, dictGet, hp, h, beq_iff_eq, Ne.symm h]
    · by_cases hq : p.1 = k'
      · have hk : ¬ k' = k := fun he => hp (hq.trans he)
        simp [dictSet, dictGet, hp, hq, hk]
      · simp [dictSet, dictGet, hp, hq, ih]

theorem countMap_get (l : List String) (k : String) :
    dictGet (countMap l) k 0 = l.count k := by
  suffices h : ∀ m, dictGet (l.foldl (fun m x => dictSet m x (dictGet m x 0 + 1)) m) k 0
      = dictGet m k 0 + l.count k by
    simpa [countMap, dictGet] using h []
  induction l with
  | nil => intro m; simp [dictGet]
  | cons x xs ih =>
    intro m
    rw [List.foldl_cons, ih, dictGet_dictSet]
    by_cases h : k = x
    · subst h
      simp [List.count_cons]
      omega
    · simp [h, List.count_cons, Ne.symm h]

theorem keys_dictSet {β : Type} (m : List (String × β)) (k : String) (v : β) :
    keys (dictSet m k v) = if k ∈ keys m then keys m else keys m ++ [k] := by
  induction m with
  | nil => simp [dictSet, keys]
  | cons p m ih =>
    by_cases hp : p.1 = k
    · simp [dictSet, keys, hp]
    · have e1 : keys (p :: dictSet m k v) = p.1 :: keys (dictSet m k v) := rfl
      have e2 : keys (p :: m) = p.1 :: keys m := rfl
      rw [dictSet, if_neg (by simpa [beq_iff_eq] using hp), e1, ih, e2]
      by_cases h : k ∈ keys m
      · rw [if_pos h, if_pos (List.mem_cons_of_mem _ h)]
      · rw [if_neg h, if_neg (by
          intro hc
          rcases List.mem_cons.1 hc with he | hc
          · exact hp he.symm
          · exact h hc)]
        simp

theorem keys_countMap (l : List String) : keys (countMap l) = firstDedup l := by
  suffices h : ∀ m : List (String × ℕ),
      keys (l.foldl (fun m x => dictSet m x (dictGet m x 0 + 1)) m)
        = keys m ++ dedupNotIn (keys m) l by
    simpa [countMap, keys, firstDedup] using h []
  induction l with
  | nil => intro m; simp [dedupNotIn]
  | cons x xs ih =>
    intro m
    rw [List.foldl_cons, ih, keys_dictSet]
    by_cases h : x ∈ keys m
    · simp [h, dedupNotIn]
    · simp [h, dedupNotIn, List.append_assoc]

theorem dedupNotIn_nodup : ∀ (l seen : List String),
    (dedupNotIn seen l).Nodup ∧ ∀ x ∈ dedupNotIn seen l, x ∉ seen := by
  intro l
  induction l with
  | nil => intro seen; simp [dedupNotIn]
  | cons x xs ih =>
    intro seen
    by_cases h : x ∈ seen
    · simpa [dedupNotIn, h] using ih seen
    · have h2 := ih (seen ++ [x])
      refine ⟨?_, ?_⟩
      · rw [dedupNotIn, if_neg h, List.nodup_cons]
        exact ⟨fun hx => (h2.2 x hx) (by simp), h2.1⟩
      · intro y hy
        rw [dedupNotIn, if_neg h, List.mem_cons] at hy
        rcases hy with rfl | hy
        · exact h
        · intro hseen
          exact (h2.2 y hy) (by simp [hseen])

theorem mem_dedupNotIn : ∀ (l seen : List String) (y : String),
    y ∈ dedupNotIn seen l ↔ y ∈ l ∧ y ∉ seen := by
  intro l
  induction l with
  | nil => intro seen y; simp [dedupNotIn]
  | cons x xs ih =>
    intro seen y
    by_cases h : x ∈ seen
    · rw [dedupNotIn, if_pos h, ih]
      constructor
      · exact fun hy => ⟨List.mem_cons_of_mem x hy.1, hy.2⟩
      · rintro ⟨hy, hns⟩
        rcases List.mem_cons.1 hy with rfl | hy
        · exact absurd h hns
        · exact ⟨hy, hns⟩
    · rw [dedupNotIn, if_neg h, List.mem_cons, ih]
      constructor
      · rintro (rfl | ⟨hy, hns⟩)
        · exact ⟨List.mem_cons_self _ _, h⟩
        · exact ⟨List.mem_cons_of_mem x hy, fun hs => hns (by simp [hs])⟩
      · rintro ⟨hy, hns⟩
        rcases List.mem_cons.1 hy with rfl | hy
        · exact Or.inl rfl
        · by_cases hx : y = x
          · exact Or.inl hx
          · exact Or.inr ⟨hy, by simp [hns, hx]⟩

theorem keys_countMap_nodup (l : List String) : (keys (countMap l)).Nodup := by
  rw [keys_countMap]
  exact (dedupNotIn_nodup l []).1

theorem mem_keys_countMap (l : List String) (k : String) :
    k ∈ keys (countMap l) ↔ k ∈ l := by
  rw [keys_countMap, firstDedup, mem_dedupNotIn]
  simp

theorem dictGet_of_mem_nodup {β : Type} {m : List (String × β)} (hnd : (keys m).Nodup)
    {k : String} {v : β} (hm : (k, v) ∈ m) (d : β) : dictGet m k d = v := by
  induction m with
  | nil => cases hm
  | cons p m ih =>
    rcases List.mem_cons.1 hm with he | hm'
    · rw [← he, dictGet]
      simp
    · by_cases hp : p.1 = k
      · exfalso
        rw [keys, List.map_cons, List.nodup_cons] at hnd
        exact hnd.1 (hp ▸ (List.mem_map_of_mem Prod.fst hm'))
      · rw [dictGet, if_neg (by simpa [beq_iff_eq] using hp)]
        exact ih (by rw [keys, List.map_cons, List.nodup_cons] at hnd; exact hnd.2) hm'

theorem sumVals_dictSet_bump (m : List (String × ℕ)) (k : String) :
    sumVals (dictSet m k (dictGet m k 0 + 1)) = sumVals m + 1 := by
  induction m with
  | nil => simp [dictSet, dictGet, sumVals]
  | cons p m ih =>
    by_cases hp : p.1 = k
    · simp [dictSet, dictGet, sumVals, hp] at ih ⊢
      omega
    · simp [dictSet, dictGet, sumVals, hp] at ih ⊢
      omega

theorem sumVals_countMap (l : List String) : sumVals (countMap l) = l.length := by
  suffices h : ∀ m, sumVals (l.foldl (fun m x => dictSet m x (dictGet m x 0 + 1)) m)
      = sumVals m + l.length by
    simpa [countMap, sumVals] using h []
  induction l with
  | nil => intro m; simp
  | cons x xs ih =>
    intro m
    rw [List.foldl_cons, ih, sumVals_dictSet_bump]
    simp only [List.length_cons]
    omega

/-! ## Lemmas about the translator -/

/-- Over the alphabet `{A,T,G,C}` every triplet is in `Codon_Table`, so a
triplet that is not one of the three stop codons never looks up to the
`"Stop"` sentinel (checked over all 64 codons). -/
theorem codon_lookup_not_stop :
    ∀ c1 ∈ validBases, ∀ c2 ∈ validBases, ∀ c3 ∈ validBases,
      String.mk [c1, c2, c3] ∉ stopCodons →
      dictGet Codon_Table (String.mk [c1, c2, c3]) "Unknown" ≠ "Stop" := by decide

/-- C3: for every nucleotide string over `{A,T,G,C}` whose length is a
multiple of 3 and in which no non-overlapping triplet is a stop codon,
the translated amino-acid sequence has length exactly `len / 3`. -/
theorem translate_length_of_no_stop (l : List Char) (h3 : l.length % 3 = 0)
    (hb : ∀ c ∈ l, c ∈ validBases)
    (hs : ∀ t ∈ triplets l, String.mk t ∉ stopCodons) :
    (translate l).length = l.length / 3 := by
  induction l using translate.induct with
  | case1 c1 c2 c3 rest heq =>
    exact absurd heq
      (codon_lookup_not_stop c1 (hb c1 (by simp)) c2 (hb c2 (by simp)) c3 (hb c3 (by simp))
        (hs [c1, c2, c3] (by rw [triplets]; exact List.mem_cons_self _ _)))
  | case2 c1 c2 c3 rest hns ih =>
    have h3' : rest.length % 3 = 0 := by
      simp only [List.length_cons] at h3
      omega
    have hb' : ∀ c ∈ rest, c ∈ validBases := fun c hc => hb c (by simp [hc])
    have hs' : ∀ t ∈ triplets rest, String.mk t ∉ stopCodons := fun t ht =>
      hs t (by rw [triplets]; exact List.mem_cons_of_mem _ ht)
    rw [translate, if_neg hns, List.length_cons, ih h3' hb' hs']
    simp only [List.length_cons]
    omega
  | case3 l h =>
    rcases l with _ | ⟨a, _ | ⟨b, _ | ⟨c, r⟩⟩⟩
    · simp [translate]
    · simp only [List.length_cons, List.length_nil] at h3
      omega
    · simp only [List.length_cons, List.length_nil] at h3
      omega
    · exact (h a b c r rfl).elim

/-- A key with no match in the association list looks up to the default. -/
theorem dictGet_of_find?_none {β : Type} {m : List (String × β)} {k : String}
    (h : m.find? (fun p => p.1 == k) = none) (d : β) : dictGet m k d = d := by
  induction m with
  | nil => rfl
  | cons p m ih =>
    have hall := List.find?_eq_none.1 h
    have hp : ¬((p.1 == k) = true) := by simpa using hall p (List.mem_cons_self _ _)
    rw [dictGet, if_neg hp]
    exact ih (List.find?_eq_none.2 fun x hx => hall x (List.mem_cons_of_mem _ hx))

/-! ## Stability of the descending sort

Python's `sorted` is stable, and `reverse=True` preserves stability, so
the sort in `aminoacid_analysis` is exactly the stable descending
insertion sort.  The next two lemmas recover input order from output
order for entries with equal keys. -/

theorem pair_sublist_orderedInsert_rev {z x y : String × ℚ} {s : List (String × ℚ)}
    (hxy : x.2 = y.2) (h : List.Sublist [x, y] (List.orderedInsert pctGe z s)) :
    List.Sublist [x, y] s ∨ (x = z ∧ y ∈ s) := by
  induction s with
  | nil =>
    exfalso
    have := h.length_le
    simp [List.orderedInsert] at this
  | cons w s' ih =>
    rw [List.orderedInsert] at h
    by_cases hzw : pctGe z w
    · rw [if_pos hzw] at h
      rcases List.sublist_cons_iff.1 h with h1 | ⟨r, hr, h1⟩
      · exact Or.inl h1
      · injection hr with h2 h3
        subst h2
        subst h3
        exact Or.inr ⟨rfl, List.singleton_sublist.1 h1⟩
    · rw [if_neg hzw] at h
      rcases List.sublist_cons_iff.1 h with h1 | ⟨r, hr, h1⟩
      · rcases ih h1 with h2 | ⟨rfl, h2⟩
        · exact Or.inl (h2.cons w)
        · exact Or.inr ⟨rfl, List.mem_cons_of_mem _ h2⟩
      · injection hr with h2 h3
        subst h2
        subst h3
        have hy : y ∈ List.orderedInsert pctGe z s' := List.singleton_sublist.1 h1
        rcases (List.mem_orderedInsert pctGe).1 hy with rfl | hy'
        · exact (hzw (by simp [pctGe, hxy])).elim
        · exact Or.inl (List.cons_sublist_cons.2 (List.singleton_sublist.2 hy'))

theorem pair_sublist_insertionSort_rev {x y : String × ℚ} (hxy : x.2 = y.2) :
    ∀ l : List (String × ℚ), List.Sublist [x, y] (List.insertionSort pctGe l) → List.Sublist [x, y] l := by
  intro l
  induction l with
  | nil => simp
  | cons z l' ih =>
    intro h
    rw [List.insertionSort] at h
    rcases pair_sublist_orderedInsert_rev hxy h with h1 | ⟨rfl, h2⟩
    · exact (ih h1).cons z
    · exact List.cons_sublist_cons.2
        (List.singleton_sublist.2 ((List.mem_insertionSort pctGe).1 h2))

/-! ## Python `max`/`min` with a key: the first extremal element wins -/

theorem maxByKey_le_and_first {α : Type} (f : α → ℕ) :
    ∀ (l : List α) (x : α),
      (∀ y ∈ x :: l, f y ≤ f (maxByKey f x l))
      ∧ (x :: l).find? (fun y => f y == f (maxByKey f x l)) = some (maxByKey f x l) := by
  intro l
  induction l with
  | nil =>
    intro x
    refine ⟨?_, ?_⟩
    · intro y hy
      rcases List.mem_cons.1 hy with rfl | h
      · exact le_refl _
      · cases h
    · simp [maxByKey, List.find?]
  | cons z l' ih =>
    intro x
    by_cases hz : f x < f z
    · have hstep : maxByKey f x (z :: l') = maxByKey f z l' := by
        simp [maxByKey, List.foldl_cons, hz]
      obtain ⟨ha, hb⟩ := ih z
      have hxm : f x < f (maxByKey f z l') :=
        lt_of_lt_of_le hz (ha z (List.mem_cons_self _ _))
      refine ⟨?_, ?_⟩
      · intro y hy
        rw [hstep]
        rcases List.mem_cons.1 hy with rfl | hy'
        · exact le_of_lt hxm
        · exact ha y hy'
      · rw [hstep, List.find?_cons_of_neg, hb]
        simp [Nat.ne_of_lt hxm]
    · have hstep : maxByKey f x (z :: l') = maxByKey f x l' := by
        simp [maxByKey, List.foldl_cons, hz]
      obtain ⟨ha, hb⟩ := ih x
      have hzx : f z ≤ f x := le_of_not_lt hz
      have hxm : f x ≤ f (maxByKey f x l') := ha x (List.mem_cons_self _ _)
      refine ⟨?_, ?_⟩
      · intro y hy
        rw [hstep]
        rcases List.mem_cons.1 hy with rfl | hy'
        · exact hxm
        · rcases List.mem_cons.1 hy' with rfl | hy''
          · exact le_trans hzx hxm
          · exact ha y (List.mem_cons_of_mem _ hy'')
      · rw [hstep]
        by_cases hpx : f x = f (maxByKey f x l')
        · have : (x :: l').find? (fun y => f y == f (maxByKey f x l')) = some x :=
            List.find?_cons_of_pos _ (by simp [hpx])
          rw [this] at hb
          rw [List.find?_cons_of_pos _ (by simp [hpx]), hb]
        · have hxlt : f x < f (maxByKey f x l') := lt_of_le_of_ne hxm hpx
          have hzlt : f z < f (maxByKey f x l') := lt_of_le_of_lt hzx hxlt
          rw [List.find?_cons_of_neg _ (by simp [Nat.ne_of_lt hxlt]),
              List.find?_cons_of_neg _ (by simp [Nat.ne_of_lt hzlt])]
          rw [List.find?_cons_of_neg _ (by simp [Nat.ne_of_lt hxlt])] at hb
          exact hb

theorem minByKey_le_and_first {α : Type} (f : α → ℕ) :
    ∀ (l : List α) (x : α),
      (∀ y ∈ x :: l, f (minByKey f x l) ≤ f y)
      ∧ (x :: l).find? (fun y => f y == f (minByKey f x l)) = some (minByKey f x l) := by
  intro l
  induction l with
  | nil =>
    intro x
    refine ⟨?_, ?_⟩
    · intro y hy
      rcases List.mem_cons.1 hy with rfl | h
      · exact le_refl _
      · cases h
    · simp [minByKey, List.find?]
  | cons z l' ih =>
    intro x
    by_cases hz : f z < f x
    · have hstep : minByKey f x (z :: l') = minByKey f z l' := by
        simp [minByKey, List.foldl_cons, hz]
      obtain ⟨ha, hb⟩ := ih z
      have hxm : f (minByKey f z l') < f x :=
        lt_of_le_of_lt (ha z (List.mem_cons_self _ _)) hz
      refine ⟨?_, ?_⟩
      · intro y hy
        rw [hstep]
        rcases List.mem_cons.1 hy with rfl | hy'
        · exact le_of_lt hxm
        · exact ha y hy'
      · rw [hstep, List.find?_cons_of_neg, hb]
        simp [Ne.symm (Nat.ne_of_lt hxm)]
    · have hstep : minByKey f x (z :: l') = minByKey f x l' := by
        simp [minByKey, List.foldl_cons, hz]
      obtain ⟨ha, hb⟩ := ih x
      have hzx : f x ≤ f z := le_of_not_lt hz
      have hxm : f (minByKey f x l') ≤ f x := ha x (List.mem_cons_self _ _)
      refine ⟨?_, ?_⟩
      · intro y hy
        rw [hstep]
        rcases List.mem_cons.1 hy with rfl | hy'
        · exact hxm
        · rcases List.mem_cons.1 hy' with rfl | hy''
          · exact le_trans hxm hzx
          · exact ha y (List.mem_cons_of_mem _ hy'')
      · rw [hstep]
        by_cases hpx : f x = f (minByKey f x l')
        · have : (x :: l').find? (fun y => f y == f (minByKey f x l')) = some x :=
            List.find?_cons_of_pos _ (by simp [hpx])
          rw [this] at hb
          rw [List.find?_cons_of_pos _ (by simp [hpx]), hb]
        · have hxlt : f (minByKey f x l') < f x := lt_of_le_of_ne hxm (Ne.symm hpx)
          have hzlt : f (minByKey f x l') < f z := lt_of_lt_of_le hxlt hzx
          rw [List.find?_cons_of_neg _ (by simp [Ne.symm (Nat.ne_of_lt hxlt)]),
              List.find?_cons_of_neg _ (by simp [Ne.symm (Nat.ne_of_lt hzlt)])]
          rw [List.find?_cons_of_neg _ (by simp [Ne.symm (Nat.ne_of_lt hxlt)])] at hb
          exact hb

/-! ## The claims -/

/-- C1: the translator reads consecutive non-overlapping triplets from
offset 0, in order; a trailing fragment of fewer than 3 characters is
discarded, a triplet absent from the Genetic Code Table emits
`"Unknown"` and translation continues, and a triplet mapping to the
stop sentinel terminates translation immediately without emitting a
residue; translating `"ATGGGGTAA"` yields exactly `["Met", "Gly"]`. -/
theorem translator_algorithm :
    (∀ l : List Char, l.length < 3 → translate l = [])
    ∧ (∀ c1 c2 c3 rest,
        Codon_Table.find? (fun p => p.1 == String.mk [c1, c2, c3]) = none →
        translate (c1 :: c2 :: c3 :: rest) = "Unknown" :: translate rest)
    ∧ (∀ c1 c2 c3 rest,
        dictGet Codon_Table (String.mk [c1, c2, c3]) "Unknown" = "Stop" →
        translate (c1 :: c2 :: c3 :: rest) = [])
    ∧ (∀ (c1 c2 c3 : Char) (rest : List Char) (aa : String),
        dictGet Codon_Table (String.mk [c1, c2, c3]) "Unknown" = aa → aa ≠ "Stop" →
        translate (c1 :: c2 :: c3 :: rest) = aa :: translate rest)
    ∧ translate "ATGGGGTAA".data = ["Met", "Gly"] := by
  refine ⟨?_, ?_, ?_, ?_, rfl⟩
  · intro l hl
    rcases l with _ | ⟨a, _ | ⟨b, _ | ⟨c, r⟩⟩⟩
    · rfl
    · rfl
    · rfl
    · simp only [List.length_cons] at hl
      omega
  · intro c1 c2 c3 rest h
    have hu := dictGet_of_find?_none h "Unknown"
    rw [translate, if_neg (by rw [hu]; decide), hu]
  · intro c1 c2 c3 rest h
    rw [translate, if_pos h]
  · intro c1 c2 c3 rest aa h hne
    rw [translate, if_neg (by rw [h]; exact hne), h]

/-- Witness for C1 at concrete inputs: a short fragment is discarded, an
unknown codon emits `"Unknown"` and continues, a stop codon terminates,
an ordinary codon emits its residue and continues. -/
theorem translator_algorithm_witness :
    translate ['A', 'T'] = []
    ∧ translate ('X' :: 'Y' :: 'Z' :: "ATG".data) = "Unknown" :: translate "ATG".data
    ∧ translate ('T' :: 'A' :: 'A' :: "ATG".data) = []
    ∧ translate ('A' :: 'T' :: 'G' :: "GGG".data) = "Met" :: translate "GGG".data :=
  ⟨translator_algorithm.1 ['A', 'T'] (by decide),
   translator_algorithm.2.1 'X' 'Y' 'Z' "ATG".data (by decide),
   translator_algorithm.2.2.1 'T' 'A' 'A' "ATG".data (by decide),
   translator_algorithm.2.2.2.1 'A' 'T' 'G' "GGG".data "Met" (by decide) (by decide)⟩

/-- Witness for C3 at `"ATGGGG"`. -/
theorem translate_length_of_no_stop_witness :
    (translate "ATGGGG".data).length = "ATGGGG".data.length / 3 :=
  translate_length_of_no_stop "ATGGGG".data (by decide) (by decide) (by decide)

/-- C6: the GC-content calculator returns
`round((count G + count C) / length, 4)` of the uppercased string,
paired with the string length; `"ATGC" ↦ 0.5`, `"AAAA" ↦ 0.0`,
`"GGCC" ↦ 1.0`. -/
theorem calculate_gc_contract :
    (∀ s : List Char, 0 < s.length →
      calculate_gc s
        = (pyRound ((((pyUpper s).count 'G' + (pyUpper s).count 'C' : ℕ) : ℚ)
            / ((s.length : ℕ) : ℚ)) 4, s.length))
    ∧ calculate_gc "ATGC".data = (1/2, 4)
    ∧ calculate_gc "AAAA".data = (0, 4)
    ∧ calculate_gc "GGCC".data = (1, 4) := by
  have hgen : ∀ s : List Char,
      calculate_gc s
        = (pyRound ((((pyUpper s).count 'G' + (pyUpper s).count 'C' : ℕ) : ℚ)
            / ((s.length : ℕ) : ℚ)) 4, s.length) := by
    intro s
    simp [calculate_gc, pyUpper]
  refine ⟨fun s _ => hgen s, ?_, ?_, ?_⟩
  · rw [hgen]
    have h1 : (pyUpper "ATGC".data).count 'G' = 1 := by decide
    have h2 : (pyUpper "ATGC".data).count 'C' = 1 := by decide
    rw [h1, h2]
    norm_num [pyRound, pyRoundInt]
  · rw [hgen]
    have h1 : (pyUpper "AAAA".data).count 'G' = 0 := by decide
    have h2 : (pyUpper "AAAA".data).count 'C' = 0 := by decide
    rw [h1, h2]
    norm_num [pyRound, pyRoundInt]
  · rw [hgen]
    have h1 : (pyUpper "GGCC".data).count 'G' = 2 := by decide
    have h2 : (pyUpper "GGCC".data).count 'C' = 2 := by decide
    rw [h1, h2]
    norm_num [pyRound, pyRoundInt]

/-- Witness for C6 at `"ATGC"`. -/
theorem calculate_gc_contract_witness :
    calculate_gc "ATGC".data
      = (pyRound ((((pyUpper "ATGC".data).count 'G' + (pyUpper "ATGC".data).count 'C' : ℕ) : ℚ)
          / (("ATGC".data.length : ℕ) : ℚ)) 4, "ATGC".data.length) :=
  calculate_gc_contract.1 "ATGC".data (by decide)

/-- C4: for every non-empty residue sequence the top-3 list has at most 3
entries, each percentage is `round(100 * count / total, 2)`, and the list
is sorted by percentage descending; for `["Met", "Gly", "Gly"]` it is
`[("Gly", 66.67), ("Met", 33.33)]`. -/
theorem top3_ranking :
    (∀ amino_acids : List String, amino_acids ≠ [] →
      (top_3 amino_acids).length ≤ 3
      ∧ (∀ p ∈ top_3 amino_acids,
          p.2 = pyRound ((100 * (amino_acids.count p.1 : ℚ)) / (amino_acids.length : ℚ)) 2)
      ∧ (top_3 amino_acids).Pairwise pctGe)
    ∧ top_3 ["Met", "Gly", "Gly"] = [("Gly", 6667/100), ("Met", 3333/100)] := by
  constructor
  · intro aas _
    refine ⟨?_, ?_, ?_⟩
    · rw [top_3]
      exact List.length_take_le 3 _
    · intro p hp
      have h1 : p ∈ List.insertionSort pctGe (residue_percentages aas) :=
        List.take_subset _ _ hp
      have h2 : p ∈ residue_percentages aas := (List.mem_insertionSort pctGe).1 h1
      rw [residue_percentages] at h2
      obtain ⟨⟨a, v⟩, hq, hpq⟩ := List.mem_map.1 h2
      have hva : v = aas.count a := by
        rw [← countMap_get aas a]
        exact (dictGet_of_mem_nodup (keys_countMap_nodup aas) hq 0).symm
      have hp1 : p.1 = a := by rw [← hpq]
      have hp2 : p.2 = pyRound (((v : ℚ) / (aas.length : ℚ)) * 100) 2 := by rw [← hpq]
      rw [hp1, hp2, hva]
      congr 1
      ring
    · have hs : (List.insertionSort pctGe (residue_percentages aas)).Pairwise pctGe :=
        List.sorted_insertionSort pctGe (residue_percentages aas)
      exact hs.sublist (List.take_sublist _ _)
  · have hcm : countMap ["Met", "Gly", "Gly"] = [("Met", 1), ("Gly", 2)] := by decide
    have hrp : residue_percentages ["Met", "Gly", "Gly"]
        = [("Met", 3333/100), ("Gly", 6667/100)] := by
      rw [residue_percentages, hcm]
      norm_num [pyRound, pyRoundInt, Int.fract, -Int.self_sub_floor]
    rw [top_3, hrp]
    norm_num [List.insertionSort, List.orderedInsert, pctGe, List.take]

/-- Witness for C4 at `["Met", "Gly", "Gly"]`. -/
theorem top3_ranking_witness :
    (top_3 ["Met", "Gly", "Gly"]).length ≤ 3
    ∧ (top_3 ["Met", "Gly", "Gly"]).Pairwise pctGe :=
  ⟨(top3_ranking.1 ["Met", "Gly", "Gly"] (by decide)).1,
   (top3_ranking.1 ["Met", "Gly", "Gly"] (by decide)).2.2⟩

/-- C5: the composition maps each chemical class to the number of
residues of that class (equivalently, the count of the class in the
property-mapped residue list); a class occurs as a key exactly when it
occurs in that list (zero-count classes are omitted), and the counts sum
to the residue total; for `["Met", "Gly", "Gly"]` the composition is
`{"nonpolar": 3}`. -/
theorem composition_counts :
    (∀ amino_acids : List String, amino_acids ≠ [] →
      (∀ c : String,
        dictGet (composition_of amino_acids) c 0
          = ((amino_acids.filter (fun aa => propertyOf aa == c)).length))
      ∧ (∀ c : String,
          c ∈ keys (composition_of amino_acids) ↔ c ∈ amino_acids.map propertyOf)
      ∧ sumVals (composition_of amino_acids) = amino_acids.length)
    ∧ composition_of ["Met", "Gly", "Gly"] = [("nonpolar", 3)] := by
  refine ⟨?_, by decide⟩
  intro aas _
  refine ⟨?_, ?_, ?_⟩
  · intro c
    rw [composition_of, countMap_get, List.count_eq_countP, List.countP_map,
        List.countP_eq_length_filter]
    rfl
  · intro c
    rw [composition_of]
    exact mem_keys_countMap _ c
  · rw [composition_of, sumVals_countMap, List.length_map]

/-- Witness for C5 at `["Met", "Gly", "Gly"]`. -/
theorem composition_counts_witness :
    dictGet (composition_of ["Met", "Gly", "Gly"]) "nonpolar" 0
      = ((["Met", "Gly", "Gly"].filter (fun aa => propertyOf aa == "nonpolar")).length)
    ∧ sumVals (composition_of ["Met", "Gly", "Gly"]) = (["Met", "Gly", "Gly"] : List String).length :=
  ⟨(composition_counts.1 ["Met", "Gly", "Gly"] (by decide)).1 "nonpolar",
   (composition_counts.1 ["Met", "Gly", "Gly"] (by decide)).2.2⟩

/-- Scanning for a record by id, one step. -/
theorem find?_by_id_cons (r : SeqRecord) (rest : List SeqRecord) (i : ℕ) :
    (r :: rest).find? (fun s => i == s.id)
      = if i = r.id then some r else rest.find? (fun s => i == s.id) := by
  by_cases h : i = r.id
  · simp [h]
  · simp [h]

/-- C2: amino-acid analysis of a stored record reports the empty-translation
condition exactly when translating that record's sequence yields no
residues, and on every error the persisted store is exactly the input
store (no record is updated). -/
theorem aa_analysis_empty_translation (store : List SeqRecord) (i : ℕ) :
    ((aminoacid_analysis store i).2 = .error AAErr.emptyTranslation ↔
      ∃ r, store.find? (fun s => i == s.id) = some r
        ∧ translate (pyUpper r.sequence.data) = [])
    ∧ (∀ e, (aminoacid_analysis store i).2 = .error e →
        (aminoacid_analysis store i).1 = store) := by
  induction store with
  | nil =>
    refine ⟨⟨fun h => ?_, fun h => ?_⟩, fun e h => rfl⟩
    · simp [aminoacid_analysis] at h
    · obtain ⟨r, hr, _⟩ := h
      simp at hr
  | cons r rest ih =>
    by_cases hid : i = r.id
    · by_cases hemp : (translate (pyUpper r.sequence.data)).length < 1
      · have he : translate (pyUpper r.sequence.data) = [] :=
          List.length_eq_zero.1 (by omega)
        have h2 : (aminoacid_analysis (r :: rest) i).2 = .error AAErr.emptyTranslation := by
          simp only [aminoacid_analysis]
          rw [if_pos hid, if_pos hemp]
        have h1 : (aminoacid_analysis (r :: rest) i).1 = r :: rest := by
          simp only [aminoacid_analysis]
          rw [if_pos hid, if_pos hemp]
        refine ⟨⟨fun _ => ⟨r, ?_, he⟩, fun _ => h2⟩, fun e _ => h1⟩
        rw [find?_by_id_cons, if_pos hid]
      · have h2 : (aminoacid_analysis (r :: rest) i).2
            = .ok { sequence_id := i, label := r.label,
                    amino_acid_sequence :=
                      String.intercalate "-" (translate (pyUpper r.sequence.data)),
                    residue_count := (translate (pyUpper r.sequence.data)).length,
                    composition := composition_of (translate (pyUpper r.sequence.data)),
                    top_3_residues := top_3 (translate (pyUpper r.sequence.data)) } := by
          simp only [aminoacid_analysis]
          rw [if_pos hid, if_neg hemp]
        refine ⟨⟨fun h => ?_, fun h => ?_⟩, fun e h => ?_⟩
        · rw [h2] at h
          simp at h
        · obtain ⟨r', hr', hemp'⟩ := h
          rw [find?_by_id_cons, if_pos hid] at hr'
          injection hr' with hrr
          subst hrr
          exact absurd hemp' (by
            intro hh
            exact hemp (by rw [hh]; simp))
        · rw [h2] at h
          simp at h
    · have hstep2 : (aminoacid_analysis (r :: rest) i).2 = (aminoacid_analysis rest i).2 := by
        simp only [aminoacid_analysis]
        rw [if_neg hid]
      have hstep1 : (aminoacid_analysis (r :: rest) i).1
          = r :: (aminoacid_analysis rest i).1 := by
        simp only [aminoacid_analysis]
        rw [if_neg hid]
      constructor
      · rw [hstep2, find?_by_id_cons, if_neg hid]
        exact ih.1
      · intro e h
        rw [hstep2] at h
        rw [hstep1, ih.2 e h]


/-- Witness for C2: a record starting with a stop codon produces the
empty-translation error and leaves the store untouched. -/
theorem aa_analysis_empty_translation_witness :
    (aminoacid_analysis [sampleStopRec] 1).2 = .error AAErr.emptyTranslation
    ∧ (aminoacid_analysis [sampleStopRec] 1).1 = [sampleStopRec] :=
  ⟨(aa_analysis_empty_translation [sampleStopRec] 1).1.mpr
      ⟨sampleStopRec, by decide, by decide⟩,
   (aa_analysis_empty_translation [sampleStopRec] 1).2 AAErr.emptyTranslation
      ((aa_analysis_empty_translation [sampleStopRec] 1).1.mpr
        ⟨sampleStopRec, by decide, by decide⟩)⟩

/-- C9: nucleotide analysis is idempotent — if analysing id `i` succeeds
with a result, running it again on the updated store returns the very
same result (the GC content and length are a pure function of the stored
sequence, which the update does not change). -/
theorem nucleotide_analysis_idempotent (store : List SeqRecord) (i : ℕ)
    (res : NucleotideResult) (h : (nucleotide_analysis store i).2 = .ok res) :
    (nucleotide_analysis (nucleotide_analysis store i).1 i).2 = .ok res := by
  induction store with
  | nil => simp [nucleotide_analysis] at h
  | cons r rest ih =>
    by_cases hid : i = r.id
    · have h2 : (nucleotide_analysis (r :: rest) i).2
          = .ok { sequence_id := i, label := r.label,
                  length := (calculate_gc r.sequence.data).2,
                  gc_content := (calculate_gc r.sequence.data).1 } := by
        simp only [nucleotide_analysis]
        rw [if_pos hid]
      have h1 : (nucleotide_analysis (r :: rest) i).1
          = { r with gc_content := some (calculate_gc r.sequence.data).1,
                     seq_length := some (calculate_gc r.sequence.data).2,
                     nuc_analysed := true } :: rest := by
        simp only [nucleotide_analysis]
        rw [if_pos hid]
      rw [h2] at h
      rw [h1]
      simp only [nucleotide_analysis]
      rw [if_pos (show i
        = ({ r with gc_content := some (calculate_gc r.sequence.data).1,
                    seq_length := some (calculate_gc r.sequence.data).2,
                    nuc_analysed := true } : SeqRecord).id from hid)]
      exact h
    · have hstep2 : (nucleotide_analysis (r :: rest) i).2 = (nucleotide_analysis rest i).2 := by
        simp only [nucleotide_analysis]
        rw [if_neg hid]
      have hstep1 : (nucleotide_analysis (r :: rest) i).1
          = r :: (nucleotide_analysis rest i).1 := by
        simp only [nucleotide_analysis]
        rw [if_neg hid]
      rw [hstep2] at h
      rw [hstep1]
      simp only [nucleotide_analysis]
      rw [if_neg hid]
      exact ih h


/-- Witness for C9 at a one-record store. -/
theorem nucleotide_analysis_idempotent_witness :
    (nucleotide_analysis (nucleotide_analysis [sampleAtgcRec] 2).1 2).2
      = (nucleotide_analysis [sampleAtgcRec] 2).2 := by
  have h : (nucleotide_analysis [sampleAtgcRec] 2).2
      = .ok { sequence_id := 2, label := "w",
              length := (calculate_gc "ATGC".data).2,
              gc_content := (calculate_gc "ATGC".data).1 } := by
    simp [nucleotide_analysis, sampleAtgcRec]
  rw [h]
  exact nucleotide_analysis_idempotent [sampleAtgcRec] 2 _ h

/-- C8: summary statistics fails with the empty-store reason exactly when
the store is empty, and with the nothing-analysed reason exactly when
records exist but none is nucleotide-analysed; the two reported reasons
are distinct; and when the nucleotide-analysed subset is non-empty but
no record is amino-acid-analysed the call succeeds with a `none`
average amino-acid length. -/
theorem summary_error_conditions :
    (∀ store : List SeqRecord,
        summary_analysis store = .error SumErr.emptyStore ↔ store = [])
    ∧ (∀ store : List SeqRecord,
        summary_analysis store = .error SumErr.noneAnalysed ↔
          store ≠ [] ∧ nucAnalysedSeqs store = [])
    ∧ sumErrDetail SumErr.emptyStore ≠ sumErrDetail SumErr.noneAnalysed
    ∧ (∀ store : List SeqRecord, store ≠ [] → nucAnalysedSeqs store ≠ [] →
        aaAnalysedSeqs store = [] →
        ∃ st, summary_analysis store = .ok st
          ∧ st.average_amino_acid_length = none) := by
  refine ⟨?_, ?_, by decide, ?_⟩
  · intro store
    cases store with
    | nil => simp [summary_analysis]
    | cons s ss =>
      cases hN : nucAnalysedSeqs (s :: ss) with
      | nil => simp [summary_analysis, hN]
      | cons a rest => simp [summary_analysis, hN]
  · intro store
    cases store with
    | nil => simp [summary_analysis]
    | cons s ss =>
      cases hN : nucAnalysedSeqs (s :: ss) with
      | nil => simp [summary_analysis, hN]
      | cons a rest => simp [summary_analysis, hN]
  · intro store hne hnuc haa
    cases store with
    | nil => exact absurd rfl hne
    | cons s ss =>
      cases hN : nucAnalysedSeqs (s :: ss) with
      | nil => exact absurd hN hnuc
      | cons a rest =>
        simp only [summary_analysis, hN]
        refine ⟨_, rfl, ?_⟩
        simp [haa]

/-- Witness for C8: the empty store fails with the empty-store reason, and
a store holding one nucleotide-analysed, never amino-acid-analysed record
succeeds with a `none` average amino-acid length. -/
theorem summary_error_conditions_witness :
    summary_analysis [] = .error SumErr.emptyStore
    ∧ (∃ st, summary_analysis [sampleNucOnlyRec] = .ok st
        ∧ st.average_amino_acid_length = none) :=
  ⟨(summary_error_conditions.1 []).mpr rfl,
   summary_error_conditions.2.2.2 [sampleNucOnlyRec] (by decide) (by decide) (by decide)⟩

/-- Counterexample to C7 as stated: a label consisting of a single space
is not the empty string and the sequence `"ATG"` is valid, yet creation
fails (the code rejects labels that are empty after `strip()`). -/
theorem create_seq_entry_blank_label_cex :
    (∃ e, (create_seq_entry [] " " "ATG").2 = .error e)
    ∧ ¬((" " : String).data = [] ∨ ("ATG" : String).data = []
        ∨ ("ATG" : String).data.length < 3
        ∨ ∃ c ∈ pyUpper ("ATG" : String).data, c ∉ validBases) :=
  ⟨⟨CreateErr.noLabel, by decide⟩, by decide⟩

/-- C7 (amended: "label is empty" becomes "label is empty or consists
only of whitespace", i.e. empty after stripping): creation fails iff the
stripped label is empty, the sequence is empty, shorter than 3, or has a
character outside `{A,T,G,C}` after uppercasing; on failure the store is
unchanged, on success the record is appended with id `max existing + 1`
(1 for an empty store, as `maxId [] = 0`) and both flags false. -/
theorem create_seq_entry_validation (store : List SeqRecord) (label sequenceIn : String) :
    ((∃ e, (create_seq_entry store label sequenceIn).2 = .error e) ↔
      (pyStrip label.data = [] ∨ sequenceIn.data = [] ∨ sequenceIn.data.length < 3
        ∨ ∃ c ∈ pyUpper sequenceIn.data, c ∉ validBases))
    ∧ (∀ e, (create_seq_entry store label sequenceIn).2 = .error e →
        (create_seq_entry store label sequenceIn).1 = store)
    ∧ (∀ r, (create_seq_entry store label sequenceIn).2 = .ok r →
        (create_seq_entry store label sequenceIn).1 = store ++ [r]
        ∧ r.id = maxId store + 1
        ∧ r.nuc_analysed = false ∧ r.aa_analysed = false) := by
  have hul : (pyUpper sequenceIn.data).length = sequenceIn.data.length := by
    simp [pyUpper]
  by_cases h1 : (pyUpper sequenceIn.data).length = 0
  · have hc : create_seq_entry store label sequenceIn = (store, .error CreateErr.noSequence) := by
      simp only [create_seq_entry]
      rw [if_pos h1]
    refine ⟨⟨fun _ => ?_, fun _ => ⟨CreateErr.noSequence, by rw [hc]⟩⟩,
            fun e _ => by rw [hc], fun r hr => absurd hr (by rw [hc]; simp)⟩
    exact Or.inr (Or.inl (List.length_eq_zero.1 (by rw [← hul]; exact h1)))
  · by_cases h2 : (pyUpper sequenceIn.data).length < 3
    · have hc : create_seq_entry store label sequenceIn = (store, .error CreateErr.tooShort) := by
        simp only [create_seq_entry]
        rw [if_neg h1, if_pos h2]
      refine ⟨⟨fun _ => ?_, fun _ => ⟨CreateErr.tooShort, by rw [hc]⟩⟩,
              fun e _ => by rw [hc], fun r hr => absurd hr (by rw [hc]; simp)⟩
      exact Or.inr (Or.inr (Or.inl (by rw [← hul]; exact h2)))
    · by_cases h3 : ((pyUpper sequenceIn.data).all (fun c => decide (c ∈ validBases))) = true
      · by_cases h4 : (pyStrip label.data).length = 0
        · have hc : create_seq_entry store label sequenceIn
              = (store, .error CreateErr.noLabel) := by
            simp only [create_seq_entry]
            rw [if_neg h1, if_neg h2, if_neg (by simp [h3]), if_pos h4]
          refine ⟨⟨fun _ => Or.inl (List.length_eq_zero.1 h4),
                   fun _ => ⟨CreateErr.noLabel, by rw [hc]⟩⟩,
                  fun e _ => by rw [hc], fun r hr => absurd hr (by rw [hc]; simp)⟩
        · have hc : create_seq_entry store label sequenceIn
              = (store ++ [{ id := maxId store + 1, label := label,
                             sequence := String.mk (pyUpper sequenceIn.data),
                             nuc_analysed := false, aa_analysed := false }],
                 .ok { id := maxId store + 1, label := label,
                       sequence := String.mk (pyUpper sequenceIn.data),
                       nuc_analysed := false, aa_analysed := false }) := by
            simp only [create_seq_entry]
            rw [if_neg h1, if_neg h2, if_neg (by simp [h3]), if_neg h4]
          refine ⟨⟨fun he => ?_, fun hd => ?_⟩, fun e he => ?_, fun r hr => ?_⟩
          · obtain ⟨e, he⟩ := he
            rw [hc] at he
            simp at he
          · exfalso
            rcases hd with hA | hB | hC | ⟨c, hcm, hcb⟩
            · exact h4 (by rw [hA]; rfl)
            · exact h1 (by simp [pyUpper, hB])
            · exact h2 (by rw [hul]; exact hC)
            · have := List.all_eq_true.1 h3 c hcm
              simp at this
              exact hcb this
          · rw [hc] at he
            simp at he
          · rw [hc] at hr
            injection hr with hr'
            subst hr'
            exact ⟨by rw [hc], rfl, rfl, rfl⟩
      · have hc : create_seq_entry store label sequenceIn
            = (store, .error CreateErr.invalidBases) := by
          simp only [create_seq_entry]
          rw [if_neg h1, if_neg h2, if_pos h3]
        refine ⟨⟨fun _ => ?_, fun _ => ⟨CreateErr.invalidBases, by rw [hc]⟩⟩,
                fun e _ => by rw [hc], fun r hr => absurd hr (by rw [hc]; simp)⟩
        refine Or.inr (Or.inr (Or.inr ?_))
        rw [List.all_eq_true] at h3
        push_neg at h3
        obtain ⟨c, hcm, hcb⟩ := h3
        exact ⟨c, hcm, by simpa using hcb⟩


/-- Witness for C7 (amended): `"AT"` and `"ATX"` fail validation, `"ATG"`
succeeds and is appended with id `maxId [] + 1` and both flags false. -/
theorem create_seq_entry_validation_witness :
    (∃ e, (create_seq_entry [] "lbl" "AT").2 = .error e)
    ∧ (∃ e, (create_seq_entry [] "lbl" "ATX").2 = .error e)
    ∧ (create_seq_entry [] "lbl" "ATG").1 = [] ++ [sampleCreatedRec]
    ∧ sampleCreatedRec.id = maxId [] + 1
    ∧ sampleCreatedRec.nuc_analysed = false ∧ sampleCreatedRec.aa_analysed = false :=
  ⟨(create_seq_entry_validation [] "lbl" "AT").1.mpr (by decide),
   (create_seq_entry_validation [] "lbl" "ATX").1.mpr (by decide),
   (create_seq_entry_validation [] "lbl" "ATG").2.2 sampleCreatedRec (by decide)⟩

/-- C10: tie-breaking is deterministic, by first occurrence.  In the
top-3 ranking, two entries with the same rounded percentage appear in the
first-occurrence order of their residues (the count dict preserves
insertion order and the sort is stable); in the summary statistics, the
reported longest (resp. shortest) record is the first record of the
nucleotide-analysed subset, in store order, attaining the maximal
(resp. minimal) length. -/
theorem tie_break_by_first_occurrence :
    (∀ (amino_acids : List String) (a b : String) (p : ℚ),
        List.Sublist [(a, p), (b, p)] (top_3 amino_acids) →
        List.Sublist [a, b] (firstDedup amino_acids))
    ∧ (∀ (store : List SeqRecord) (st : SummaryStats),
        summary_analysis store = .ok st →
        (∀ x ∈ nucAnalysedSeqs store, recLen x ≤ maxNucLen store)
        ∧ (∃ r, (nucAnalysedSeqs store).find? (fun s => recLen s == maxNucLen store) = some r
            ∧ st.longest_nucleotide_sequence = r.label)
        ∧ (∀ x ∈ nucAnalysedSeqs store, minNucLen store ≤ recLen x)
        ∧ (∃ r, (nucAnalysedSeqs store).find? (fun s => recLen s == minNucLen store) = some r
            ∧ st.shortest_nucleotide_sequence = r.label)) := by
  constructor
  · intro aas a b p hsub
    have h1 : List.Sublist [(a, p), (b, p)]
        (List.insertionSort pctGe (residue_percentages aas)) :=
      hsub.trans (List.take_sublist _ _)
    have h2 : List.Sublist [(a, p), (b, p)] (residue_percentages aas) :=
      pair_sublist_insertionSort_rev
        (show ((a, p) : String × ℚ).2 = ((b, p) : String × ℚ).2 from rfl) _ h1
    have h3 : List.Sublist [a, b] (keys (residue_percentages aas)) := by
      have := h2.map Prod.fst
      simpa [keys] using this
    have h4 : keys (residue_percentages aas) = keys (countMap aas) := by
      rw [residue_percentages, keys, keys, List.map_map]
      rfl
    rw [h4, keys_countMap] at h3
    exact h3
  · intro store st hok
    cases store with
    | nil => simp [summary_analysis] at hok
    | cons s ss =>
      cases hN : nucAnalysedSeqs (s :: ss) with
      | nil => simp [summary_analysis, hN] at hok
      | cons a rest =>
        simp only [summary_analysis, hN] at hok
        have hst := (Except.ok.inj hok).symm
        subst hst
        obtain ⟨hmax_le, hmax_first⟩ := maxByKey_le_and_first recLen rest a
        obtain ⟨hmin_le, hmin_first⟩ := minByKey_le_and_first recLen rest a
        have hML : maxNucLen (s :: ss) = recLen (maxByKey recLen a rest) := by
          rw [maxNucLen, hN]
        have hmL : minNucLen (s :: ss) = recLen (minByKey recLen a rest) := by
          rw [minNucLen, hN]
        refine ⟨?_, ⟨maxByKey recLen a rest, ?_, rfl⟩, ?_,
                ⟨minByKey recLen a rest, ?_, rfl⟩⟩
        · intro x hx
          rw [hML]
          exact hmax_le x hx
        · rw [hML]
          exact hmax_first
        · intro x hx
          rw [hmL]
          exact hmin_le x hx
        · rw [hmL]
          exact hmin_first

/-- Witness for C10: with the tied ranking of `["Met", "Gly"]` (both 50%)
the sorted order follows first occurrence, and with two records of equal
length the earlier one is reported as both longest and shortest. -/
theorem tie_break_by_first_occurrence_witness :
    List.Sublist ["Met", "Gly"] (firstDedup ["Met", "Gly"])
    ∧ (∃ st, summary_analysis [sampleTieRecA, sampleTieRecB] = .ok st
        ∧ st.longest_nucleotide_sequence = sampleTieRecA.label
        ∧ st.shortest_nucleotide_sequence = sampleTieRecA.label) := by
  constructor
  · apply tie_break_by_first_occurrence.1 ["Met", "Gly"] "Met" "Gly" 50
    have hcm : countMap ["Met", "Gly"] = [("Met", 1), ("Gly", 1)] := by decide
    have ht : top_3 ["Met", "Gly"] = [("Met", 50), ("Gly", 50)] := by
      rw [top_3, residue_percentages, hcm]
      norm_num [pyRound, pyRoundInt, Int.fract, -Int.self_sub_floor,
                List.insertionSort, List.orderedInsert, pctGe, List.take]
    rw [ht]
  · obtain ⟨hmaxle, ⟨r, hfind, hlong⟩, hminle, ⟨r', hfind', hshort⟩⟩ :=
      tie_break_by_first_occurrence.2 [sampleTieRecA, sampleTieRecB] _ rfl
    refine ⟨_, rfl, ?_, ?_⟩
    · rw [hlong]
      have hA : (nucAnalysedSeqs [sampleTieRecA, sampleTieRecB]).find?
          (fun s => recLen s == maxNucLen [sampleTieRecA, sampleTieRecB])
            = some sampleTieRecA := by decide
      rw [hA] at hfind
      rw [← Option.some.inj hfind]
    · rw [hshort]
      have hA : (nucAnalysedSeqs [sampleTieRecA, sampleTieRecB]).find?
          (fun s => recLen s == minNucLen [sampleTieRecA, sampleTieRecB])
            = some sampleTieRecA := by decide
      rw [hA] at hfind'
      rw [← Option.some.inj hfind']

end DnaToolkit
